import Mathlib

/-!
# Verification of the parallel weather-analysis reduction core

Shallow embedding of the statistics-accumulation core shared by the four
backends of the repository (serial `weather_analysis.c`, OpenMP
`weather_analysis_omp.c`, MPI `weather_analysis_mpi.c`, CUDA
`weather_analysis_cuda.cu`).

Modelling conventions:
* C `double`/`float` metric values are modelled as rationals `ℚ`
  (reduction sums are then exact; the spec's "within tolerance" clauses
  are realised as exact equalities of the rational model).
* The `DBL_MAX` / `-DBL_MAX` (resp. `FLT_MAX`) sentinels used for the
  running minimum and maximum are modelled as the top and bottom
  elements of `WithBot (WithTop ℚ)`, matching the spec's description of
  the sentinels as `+∞` and `-∞`; `fminf`/`fmaxf` and the `<`-guarded
  updates become lattice `min`/`max` on that order.
* C `int` counters are modelled as `ℕ` (they only ever increase from 0
  by 1 or by sums of other counters, so no overflow wraparound is
  reachable within the modelled per-file record counts).
-/

namespace Weather

/-- Extended metric value: a rational, or the `+∞` (`DBL_MAX` sentinel,
`⊤`) / `-∞` (`-DBL_MAX` sentinel, `⊥`) sentinels used by the running
min/max fields before any record has contributed. -/
abbrev Temp : Type := WithBot (WithTop ℚ)

/-- Embed a finite metric value into `Temp`. -/
def tval (q : ℚ) : Temp := ((q : WithTop ℚ) : WithBot (WithTop ℚ))

/-- One parsed data row, as produced by the CSV-parsing collaborator
(`get_field`/`get_month` plus the `valid_temp`/`valid_precip` flags of
the CUDA host parser, `weather_analysis_cuda.cu` lines 257-282; the
serial/OpenMP/MPI loops test `field_buf[0] != '\0'` for the same
presence information).  `month` is the 0-indexed value returned by
`get_month`, which may be `-1` (short/absent date) or out of `[0,11]`
(unparseable month digits). -/
structure WeatherRecord where
  avg_temp : ℚ
  precipitation : ℚ
  month : ℤ
  valid_temp : Bool
  valid_precip : Bool
deriving DecidableEq, Inhabited, Repr

/-- The per-entity statistics accumulator: exactly the aggregate fields
of the C `CityStats` struct except `name` and `record_count`, which is
also exactly the per-thread shared-memory accumulator of the CUDA
kernel (`sh_temp_sum`, `sh_temp_min`, `sh_temp_max`, `sh_temp_count`,
`sh_precip_sum`, `sh_precip_count`, `sh_monthly_temp`,
`sh_monthly_count`). -/
@[ext]
structure StatAccumulator where
  temp_sum : ℚ
  temp_min : Temp
  temp_max : Temp
  temp_count : ℕ
  precip_sum : ℚ
  precip_count : ℕ
  monthly_temp_sum : Fin 12 → ℚ
  monthly_temp_count : Fin 12 → ℕ
deriving DecidableEq

/-- The zero-initialised accumulator: `weather_analysis_cuda.cu` lines
157-167 (`0`, `FLT_MAX`, `-FLT_MAX`, zeroed buckets), identically the
serial initialisation (`weather_analysis.c` lines 81-89 modulo
`record_count`). -/
def initAcc : StatAccumulator where
  temp_sum := 0
  temp_min := ⊤
  temp_max := ⊥
  temp_count := 0
  precip_sum := 0
  precip_count := 0
  monthly_temp_sum := fun _ => 0
  monthly_temp_count := fun _ => 0

/-- The bucket index derived from a record's month: the guard
`month >= 0 && month < 12` used by every backend before touching the
monthly arrays (`weather_analysis_cuda.cu` line 179,
`weather_analysis.c` line 122). -/
def bucketIdx (m : ℤ) : Option (Fin 12) :=
  if h : 0 ≤ m ∧ m < 12 then some ⟨m.toNat, by omega⟩ else none

/-- Fold one record into an accumulator: the body of the record loop,
`weather_analysis_cuda.cu` lines 170-191 (identically the serial loop
body `weather_analysis.c` lines 107-134 minus `record_count`).  Each
field is updated exactly when its validity guard holds; the monthly
buckets additionally require `bucketIdx` to be in range, the record's
primary metric contributing to the top-level fields either way. -/
def accRecord (a : StatAccumulator) (r : WeatherRecord) : StatAccumulator where
  temp_sum := if r.valid_temp then a.temp_sum + r.avg_temp else a.temp_sum
  temp_min := if r.valid_temp then min a.temp_min (tval r.avg_temp) else a.temp_min
  temp_max := if r.valid_temp then max a.temp_max (tval r.avg_temp) else a.temp_max
  temp_count := if r.valid_temp then a.temp_count + 1 else a.temp_count
  precip_sum := if r.valid_precip then a.precip_sum + r.precipitation else a.precip_sum
  precip_count := if r.valid_precip then a.precip_count + 1 else a.precip_count
  monthly_temp_sum :=
    if r.valid_temp then
      match bucketIdx r.month with
      | some i => Function.update a.monthly_temp_sum i (a.monthly_temp_sum i + r.avg_temp)
      | none => a.monthly_temp_sum
    else a.monthly_temp_sum
  monthly_temp_count :=
    if r.valid_temp then
      match bucketIdx r.month with
      | some i => Function.update a.monthly_temp_count i (a.monthly_temp_count i + 1)
      | none => a.monthly_temp_count
    else a.monthly_temp_count

/-- The combine operation on two partial accumulators: the body of one
block-level tournament-reduction step, `weather_analysis_cuda.cu` lines
198-208 (field-wise sum / `fminf` / `fmaxf`), which is also what the
thread-0 cross-block merge at lines 215-225 computes when the blocks'
contributions are serialised. -/
def combine (a b : StatAccumulator) : StatAccumulator where
  temp_sum := a.temp_sum + b.temp_sum
  temp_min := min a.temp_min b.temp_min
  temp_max := max a.temp_max b.temp_max
  temp_count := a.temp_count + b.temp_count
  precip_sum := a.precip_sum + b.precip_sum
  precip_count := a.precip_count + b.precip_count
  monthly_temp_sum := fun m => a.monthly_temp_sum m + b.monthly_temp_sum m
  monthly_temp_count := fun m => a.monthly_temp_count m + b.monthly_temp_count m

/-- The full per-entity result of the LocalReducer: the aggregate
fields plus the `record_count` of all rows seen. -/
@[ext]
structure CityStats extends StatAccumulator where
  record_count : ℕ
deriving DecidableEq

/-- Zero-initialised `CityStats`: `weather_analysis.c` lines 81-89. -/
def initCity : CityStats := { initAcc with record_count := 0 }

/-- One iteration of the serial per-row loop (`weather_analysis.c`
lines 100-135): `record_count++` unconditionally, then the guarded
aggregate updates. -/
def foldRecord (c : CityStats) (r : WeatherRecord) : CityStats :=
  { accRecord c.toStatAccumulator r with record_count := c.record_count + 1 }

/-- The LocalReducer: fold a record sequence left-to-right into one
`CityStats`, in original order (`weather_analysis.c` lines 100-135). -/
def process_records (rs : List WeatherRecord) : CityStats :=
  rs.foldl foldRecord initCity

/-! ## Algebraic structure of `combine`

The kernel's tree and cross-block reduction are analysed through the
commutative-monoid structure `(StatAccumulator, combine, initAcc)`. -/

instance : Zero StatAccumulator := ⟨initAcc⟩

instance : Add StatAccumulator := ⟨combine⟩

instance : AddCommMonoid StatAccumulator where
  add_assoc a b c := by
    show combine (combine a b) c = combine a (combine b c)
    ext <;> simp [combine, add_assoc, min_assoc, max_assoc]
  zero_add a := by
    show combine initAcc a = a
    ext <;> simp [combine, initAcc, min_top_left, max_bot_left]
  add_zero a := by
    show combine a initAcc = a
    ext <;> simp [combine, initAcc, min_top_right, max_bot_right]
  add_comm a b := by
    show combine a b = combine b a
    ext <;> simp [combine, add_comm, min_comm, max_comm]
  nsmul := nsmulRec

/-- The single-record accumulator: what one record contributes on its
own (used to express the loops as monoid sums). -/
def recOf (r : WeatherRecord) : StatAccumulator := accRecord initAcc r

/-- The contribution of record index `i` of the list `rs` (the kernel's
`records[idx]` read; indices are always in bounds in the kernel, so the
`getD` default is never consulted along reachable paths). -/
def recAt (rs : List WeatherRecord) (i : ℕ) : StatAccumulator :=
  recOf (rs.getD i default)

/-! ## The CUDA record-level reduction (`process_weather_records`)

`B := blockDim.x` is the execution-group size (a power of two; the
kernel is launched with `BLOCK_SIZE = 256`), `G := gridDim.x` the group
count.  Thread `t` of block `b` starts at `idx = b*B + t` and strides
by `B*G` (`weather_analysis_cuda.cu` lines 154, 170-191). -/

/-- The grid-strided private fold of one thread: the `while (idx <
num_records)` loop of the kernel.  The thread visits exactly the
indices `i < rs.length` with `i % (B*G) = b*B + t`, in increasing
order. -/
def threadFold (rs : List WeatherRecord) (B G b t : ℕ) : StatAccumulator :=
  ((List.range rs.length).filter (fun i => i % (B * G) == b * B + t)).foldl
    (fun a i => accRecord a (rs.getD i default)) initAcc

/-- One tournament step at stride `s`: threads `t < s` combine slot `t`
with slot `t + s`; the rest keep their value (`weather_analysis_cuda.cu`
lines 196-211, one iteration of `for (s = blockDim.x/2; s > 0; s >>= 1)`
together with its barrier). -/
def treeStep (f : ℕ → StatAccumulator) (s : ℕ) (t : ℕ) : StatAccumulator :=
  if t < s then combine (f t) (f (t + s)) else f t

/-- The tournament loop for a group of `2^k` units: strides `2^(k-1),
…, 2, 1`, after which slot `0` holds the group's combined accumulator. -/
def treeReduceAux : ℕ → (ℕ → StatAccumulator) → ℕ → StatAccumulator
  | 0, f => f
  | k + 1, f => treeReduceAux k (treeStep f (2 ^ k))

/-- The accumulator block `b` contributes to the cross-block merge:
slot 0 after the tournament over its `2^k` threads' private folds. -/
def blockReduce (rs : List WeatherRecord) (k G b : ℕ) : StatAccumulator :=
  treeReduceAux k (threadFold rs (2 ^ k) G b) 0

/-! ## The cross-block merge as written

After the tournament, thread 0 of each block merges its block result
into the global cells (`weather_analysis_cuda.cu` lines 214-226): the
counts, sums and bucket fields with `atomicAdd`, but the extrema with
`*temp_min_out = fminf(*temp_min_out, sh_temp_min[0]);` (and `fmaxf`
likewise at line 217) — a plain load followed by a plain store, not an
atomic primitive.  The kernel is therefore modelled under an explicit
interleaving of the competing blocks' load/store events. -/

/-- One memory event of a block's non-atomic extrema update: the load
of the global cell(s), or the store of the `fminf`/`fmaxf` result. -/
inductive MergeEv : Type
  | load (b : ℕ)
  | store (b : ℕ)
deriving DecidableEq, Repr

/-- Execute a schedule of load/store events on the global minimum cell
in isolation.  `v b` is block `b`'s tournament minimum
`sh_temp_min[0]`; `regs` holds each block's loaded value; `g` is the
global `*temp_min_out` cell.  A `load b` reads `g` into block `b`'s
register; a `store b` overwrites `g` with `fminf(regs b, v b)` —
exactly the two halves of line 216. -/
def runMinMerge (v : ℕ → Temp) : List MergeEv → (ℕ → Temp) → Temp → Temp
  | [], _, g => g
  | MergeEv.load b :: evs, regs, g => runMinMerge v evs (Function.update regs b g) g
  | MergeEv.store b :: evs, regs, _ => runMinMerge v evs regs (min (regs b) (v b))

/-- Execute a schedule of cross-block merge events on the full global
accumulator.  `v b` is block `b`'s tournament result (its shared-memory
slot 0).  A `load b` performs the plain loads of `*temp_min_out` and
`*temp_max_out` (lines 216-217) into block `b`'s registers; a `store b`
performs the corresponding plain stores `fminf(loaded, sh_temp_min[0])`
/ `fmaxf(loaded, sh_temp_max[0])` together with block `b`'s `atomicAdd`
updates of lines 215 and 218-225.  (The adds are atomic and commutative,
so attaching each block's adds to its store event loses no generality
for the add fields; only the extrema depend on the interleaving.) -/
def crossMerge (v : ℕ → StatAccumulator) :
    List MergeEv → (ℕ → Temp) → (ℕ → Temp) → StatAccumulator → StatAccumulator
  | [], _, _, g => g
  | MergeEv.load b :: evs, rmin, rmax, g =>
      crossMerge v evs (Function.update rmin b g.temp_min)
        (Function.update rmax b g.temp_max) g
  | MergeEv.store b :: evs, rmin, rmax, g =>
      crossMerge v evs rmin rmax
        { temp_sum := g.temp_sum + (v b).temp_sum
          temp_min := min (rmin b) ((v b).temp_min)
          temp_max := max (rmax b) ((v b).temp_max)
          temp_count := g.temp_count + (v b).temp_count
          precip_sum := g.precip_sum + (v b).precip_sum
          precip_count := g.precip_count + (v b).precip_count
          monthly_temp_sum := fun m => g.monthly_temp_sum m + (v b).monthly_temp_sum m
          monthly_temp_count := fun m => g.monthly_temp_count m + (v b).monthly_temp_count m }

/-- The whole kernel for one entity under a given interleaving `sched`
of the blocks' cross-block merge events: every block's tournament
result is merged into the zero-initialised global accumulator (the host
initialises the global cells to `0` / `DBL_MAX` / `-DBL_MAX`,
`weather_analysis_cuda.cu` lines 309-323) by the load/store/atomic-add
events of lines 214-226, in the order given by `sched`. -/
def process_weather_records (rs : List WeatherRecord) (k G : ℕ)
    (sched : List MergeEv) : StatAccumulator :=
  crossMerge (blockReduce rs k G) sched (fun _ => ⊤) (fun _ => ⊥) initAcc

/-- The race-free schedule: each block's load/store pair runs
uninterrupted, block after block. -/
def serialSched (G : ℕ) : List MergeEv :=
  ((List.range G).map (fun b => [MergeEv.load b, MergeEv.store b])).flatten

/-! ## Partition planning (`weather_analysis_mpi.c` lines 305-324) -/

/-- `files_per_proc = (num_files + size - 1) / size`
(`weather_analysis_mpi.c` line 317): the ceiling of `N / W`. -/
def files_per_proc (N W : ℕ) : ℕ := (N + W - 1) / W

/-- Block policy: worker `r` owns the contiguous indices from
`my_start = r * files_per_proc` up to `my_end = min (my_start +
files_per_proc) N` (`weather_analysis_mpi.c` lines 316-324). -/
def blockOwn (N W r : ℕ) : List ℕ :=
  List.range' (r * files_per_proc N W)
    (min (r * files_per_proc N W + files_per_proc N W) N - r * files_per_proc N W)

/-- The loop `for (i = rank; i < num_files; i += size)`
(`weather_analysis_mpi.c` lines 312-314).  The `0 < W` guard packages
the stride positivity that MPI guarantees (`size ≥ 1`); with `W = 0`
the C loop would not terminate. -/
def cyclicGo (N W : ℕ) (i : ℕ) : List ℕ :=
  if _h : 0 < W ∧ i < N then i :: cyclicGo N W (i + W) else []
termination_by N - i
decreasing_by omega

/-- Cyclic policy: worker `r` owns `r, r+W, r+2W, …` below `N`. -/
def cyclicOwn (N W r : ℕ) : List ℕ := cyclicGo N W r

/-! ## Per-work-item processing with fallible input
(`weather_analysis_omp.c` lines 78-132, `weather_analysis_mpi.c` lines
88-146) -/

/-- One work item's input: `none` models a file that cannot be opened
(`fopen` returns `NULL`); `some rs` models a readable file whose data
rows parse to `rs` (an empty or header-only file gives `some []`).

The C function receives a pointer to the caller's result slot and
returns immediately — before the zero-initialisation at
`weather_analysis_omp.c` lines 82-90 — when `fopen` fails, so on the
`none` path the slot keeps whatever the caller's buffer held. -/
def process_city_file (file : Option (List WeatherRecord)) (city : CityStats) : CityStats :=
  match file with
  | none => city
  | some rs => process_records rs

/-- One possible content of a caller's freshly `malloc`ed result slot
before `process_city_file` runs: `malloc` leaves the memory
indeterminate, modelled here by an arbitrary nonzero filling. -/
def garbageSlot : CityStats where
  temp_sum := 7
  temp_min := ⊥
  temp_max := ⊤
  temp_count := 7
  precip_sum := 7
  precip_count := 7
  monthly_temp_sum := fun _ => 7
  monthly_temp_count := fun _ => 7
  record_count := 7

/-- The OpenMP work loop (`weather_analysis_omp.c` lines 284-302): each
index `i` is processed independently into its own pre-allocated slot
`local_cities[i]`. -/
def process_city_files (files : List (Option (List WeatherRecord)))
    (bufs : List CityStats) : List CityStats :=
  List.zipWith process_city_file files bufs

/-! ## The CUDA host-side record cap
(`weather_analysis_cuda.cu` lines 12, 257-282, 353) -/

/-- `#define MAX_RECORDS_PER_FILE 50000`. -/
def MAX_RECORDS_PER_FILE : ℕ := 50000

/-- The host parse loop `while (fgets(...) && num_records <
MAX_RECORDS_PER_FILE)`: it keeps the first `MAX_RECORDS_PER_FILE` data
rows and stops reading. -/
def cuda_host_parse (rows : List WeatherRecord) : List WeatherRecord :=
  rows.take MAX_RECORDS_PER_FILE

/-- `city->record_count = num_records` (`weather_analysis_cuda.cu` line
353): the number of rows actually parsed. -/
def cuda_record_count (rows : List WeatherRecord) : ℕ :=
  (cuda_host_parse rows).length

/-! ## The ResultCollector (`weather_analysis_mpi.c` lines 344-410)

Rank 0 computes `displacements[0] = 0; displacements[i] =
displacements[i-1] + all_counts[i-1]` (lines 392-395) and `MPI_Gatherv`
/ `MPI_Igatherv` places source `i`'s `j`-th local result at
`all_results[displacements[i] + j]`. -/

/-- The displacement array: `displacements cs d` starts the running
offset at `d` (rank 0 starts it at 0). -/
def displacements : List ℕ → ℕ → List ℕ
  | [], _ => []
  | c :: cs, d => d :: displacements cs (d + c)

/-- Deposit source block `l` at offset `off` of the result buffer: the
`MPI_Gatherv` receive of one source's contiguous block.  Positions
outside `[off, off + l.length)` are untouched. -/
def blockWrite {α : Type} (buf : ℕ → Option α) (off : ℕ) (l : List α) : ℕ → Option α :=
  fun p => if off ≤ p ∧ p < off + l.length then l[p - off]? else buf p

/-- Assemble the global result buffer by depositing the sources' blocks
in arrival order `order` (each arrival writes its block at its
precomputed displacement, independent of when it arrives). -/
def gatherArrival {α : Type} (locals : List (List α)) (order : List ℕ) : ℕ → Option α :=
  order.foldl
    (fun buf i =>
      blockWrite buf ((displacements (locals.map List.length) 0).getD i 0) (locals.getD i []))
    (fun _ => none)

/-- The accumulator invariant of the spec's data model: a populated
accumulator has `min ≤ max`, and an untouched one still holds the
`+∞` / `-∞` sentinels. -/
def StatInv (a : StatAccumulator) : Prop :=
  (0 < a.temp_count → a.temp_min ≤ a.temp_max) ∧
    (a.temp_count = 0 → a.temp_min = ⊤ ∧ a.temp_max = ⊥)

/-! ## Basic algebra of `combine` -/

theorem combine_eq_add (a b : StatAccumulator) : combine a b = a + b := rfl

theorem initAcc_eq_zero : initAcc = (0 : StatAccumulator) := rfl

/-- Each record's contribution decomposes the per-record update:
folding a record equals combining with that record's singleton
accumulator. -/
theorem accRecord_eq_add (a : StatAccumulator) (r : WeatherRecord) :
    accRecord a r = a + recOf r := by
  show accRecord a r = combine a (accRecord initAcc r)
  rcases hb : bucketIdx r.month with _ | i <;>
    ext <;>
      cases hv : r.valid_temp <;>
        simp [accRecord, combine, initAcc, hb, hv, Function.update_apply,
          min_top_left, max_bot_left] <;>
        split <;> simp_all

/-- A left fold of `accRecord` from `z` is `z` plus the monoid sum of
the records' individual contributions. -/
theorem foldl_accRecord (rs : List WeatherRecord) (z : StatAccumulator) :
    rs.foldl accRecord z = z + (rs.map recOf).sum := by
  induction rs generalizing z with
  | nil => simp
  | cons r rs ih => simp [ih, accRecord_eq_add, add_assoc]

/-- Folding rows into a `CityStats` tracks the aggregate part through
`accRecord`. -/
theorem foldl_foldRecord_toStat (l : List WeatherRecord) (c : CityStats) :
    (l.foldl foldRecord c).toStatAccumulator = l.foldl accRecord c.toStatAccumulator := by
  induction l generalizing c with
  | nil => rfl
  | cons r l ih => simpa [foldRecord] using ih _

/-- `process_records` and the aggregate part of `CityStats` commute
with the fold. -/
theorem process_records_toStat (rs : List WeatherRecord) :
    (process_records rs).toStatAccumulator = (rs.map recOf).sum := by
  rw [process_records, foldl_foldRecord_toStat, foldl_accRecord]
  show initAcc + _ = _
  rw [initAcc_eq_zero, zero_add]

/-- C1: `combine` adds the counts and sums, takes the `min` of the
minima and the `max` of the maxima, does the same for the precipitation
sum/count and field-wise for the 12 monthly buckets; and combining the
fold of the single record `10` with the fold of the records `20, 30`
yields `count = 3`, `sum = 60`, `min = 10`, `max = 30` (Scenario A). -/
theorem combine_contract :
    (∀ a b : StatAccumulator,
      (combine a b).temp_count = a.temp_count + b.temp_count ∧
      (combine a b).temp_sum = a.temp_sum + b.temp_sum ∧
      (combine a b).temp_min = min a.temp_min b.temp_min ∧
      (combine a b).temp_max = max a.temp_max b.temp_max ∧
      (combine a b).precip_sum = a.precip_sum + b.precip_sum ∧
      (combine a b).precip_count = a.precip_count + b.precip_count ∧
      (∀ m : Fin 12,
        (combine a b).monthly_temp_sum m = a.monthly_temp_sum m + b.monthly_temp_sum m ∧
        (combine a b).monthly_temp_count m =
          a.monthly_temp_count m + b.monthly_temp_count m)) ∧
    ((combine (process_records [⟨10, 0, -1, true, false⟩]).toStatAccumulator
        (process_records [⟨20, 0, -1, true, false⟩,
          ⟨30, 0, -1, true, false⟩]).toStatAccumulator).temp_count = 3 ∧
      (combine (process_records [⟨10, 0, -1, true, false⟩]).toStatAccumulator
        (process_records [⟨20, 0, -1, true, false⟩,
          ⟨30, 0, -1, true, false⟩]).toStatAccumulator).temp_sum = 60 ∧
      (combine (process_records [⟨10, 0, -1, true, false⟩]).toStatAccumulator
        (process_records [⟨20, 0, -1, true, false⟩,
          ⟨30, 0, -1, true, false⟩]).toStatAccumulator).temp_min = tval 10 ∧
      (combine (process_records [⟨10, 0, -1, true, false⟩]).toStatAccumulator
        (process_records [⟨20, 0, -1, true, false⟩,
          ⟨30, 0, -1, true, false⟩]).toStatAccumulator).temp_max = tval 30) := by
  refine ⟨fun _ _ => ⟨rfl, rfl, rfl, rfl, rfl, rfl, fun _ => ⟨rfl, rfl⟩⟩, ?_, ?_, ?_, ?_⟩ <;>
    simp only [process_records, List.foldl_cons, List.foldl_nil, foldRecord, accRecord,
      combine, initCity, initAcc, tval, if_true, min_top_left, max_bot_left,
      ← WithTop.coe_min, ← WithBot.coe_min, ← WithTop.coe_max, ← WithBot.coe_max] <;>
    norm_num

/-- C7: `combine` is commutative and associative exactly on the count,
min and max fields (and on the integer precipitation and monthly bucket
counts); the zero-initialised accumulator (`count = 0`, `sum = 0`,
`min = +∞`, `max = -∞`) is a two-sided identity for it; and a thread
whose grid-strided assignment is empty stays at that identity, so its
cross-thread combine is a no-op. -/
theorem combine_comm_assoc_identity :
    (∀ a b : StatAccumulator,
      (combine a b).temp_count = (combine b a).temp_count ∧
      (combine a b).temp_min = (combine b a).temp_min ∧
      (combine a b).temp_max = (combine b a).temp_max ∧
      (combine a b).precip_count = (combine b a).precip_count ∧
      ∀ m : Fin 12,
        (combine a b).monthly_temp_count m = (combine b a).monthly_temp_count m) ∧
    (∀ a b c : StatAccumulator,
      (combine (combine a b) c).temp_count = (combine a (combine b c)).temp_count ∧
      (combine (combine a b) c).temp_min = (combine a (combine b c)).temp_min ∧
      (combine (combine a b) c).temp_max = (combine a (combine b c)).temp_max ∧
      (combine (combine a b) c).precip_count = (combine a (combine b c)).precip_count ∧
      ∀ m : Fin 12,
        (combine (combine a b) c).monthly_temp_count m =
          (combine a (combine b c)).monthly_temp_count m) ∧
    (∀ a : StatAccumulator, combine a initAcc = a ∧ combine initAcc a = a) ∧
    (∀ (rs : List WeatherRecord) (B G b t : ℕ),
      (List.range rs.length).filter (fun i => i % (B * G) == b * B + t) = [] →
      threadFold rs B G b t = initAcc) := by
  refine ⟨?_, ?_, ?_, ?_⟩
  · intro a b
    refine ⟨?_, ?_, ?_, ?_, fun m => ?_⟩ <;>
      simp [combine, add_comm, min_comm, max_comm]
  · intro a b c
    refine ⟨?_, ?_, ?_, ?_, fun m => ?_⟩ <;>
      simp [combine, add_assoc, min_assoc, max_assoc]
  · intro a
    constructor
    · show a + 0 = a
      exact add_zero a
    · show (0 : StatAccumulator) + a = a
      exact zero_add a
  · intro rs B G b t h
    rw [threadFold, h]
    rfl

/-- Witness for C7's empty-assignment clause: with one record, group
size `1` and two groups, thread `(b, t) = (1, 0)` owns no record and
its accumulator is the identity. -/
theorem combine_comm_assoc_identity_witness :
    threadFold [⟨10, 0, -1, true, false⟩] 1 2 1 0 = initAcc :=
  combine_comm_assoc_identity.2.2.2 [⟨10, 0, -1, true, false⟩] 1 2 1 0 (by decide)

/-! ## LocalReducer policy (C5) -/

theorem foldl_record_count (l : List WeatherRecord) (c : CityStats) :
    (l.foldl foldRecord c).record_count = c.record_count + l.length := by
  induction l generalizing c with
  | nil => simp
  | cons r l ih =>
    rw [List.foldl_cons, ih, foldRecord]
    simp
    omega

theorem foldl_temp_count (l : List WeatherRecord) (c : CityStats) :
    (l.foldl foldRecord c).temp_count =
      c.temp_count + (l.filter (fun r => r.valid_temp)).length := by
  induction l generalizing c with
  | nil => simp
  | cons r l ih =>
    cases hv : r.valid_temp <;>
      simp [ih, foldRecord, accRecord, hv, List.filter_cons]
    all_goals omega

/-- C5: the LocalReducer counts every row in `record_count` but only
rows with a present primary metric in `temp_count`; a row with a
missing primary metric advances `record_count` only; a row whose month
is outside `[0,11]` touches no monthly bucket while its present primary
metric still feeds `sum`/`min`/`max`/`count`; the reducer is a total
function of the row list (malformed fields only clear validity flags or
produce an out-of-range month, they never fail the run); and 3 records
with the 2nd missing its primary field give `record_count = 3`,
`temp_count = 2` (Scenario B). -/
theorem local_reducer_policy :
    (∀ rs : List WeatherRecord, (process_records rs).record_count = rs.length) ∧
    (∀ rs : List WeatherRecord,
      (process_records rs).temp_count = (rs.filter (fun r => r.valid_temp)).length) ∧
    (∀ (c : CityStats) (r : WeatherRecord), r.valid_temp = false →
      (foldRecord c r).record_count = c.record_count + 1 ∧
      (foldRecord c r).temp_count = c.temp_count) ∧
    (∀ (a : StatAccumulator) (r : WeatherRecord), r.valid_temp = true →
      r.month < 0 ∨ 12 ≤ r.month →
      (accRecord a r).monthly_temp_sum = a.monthly_temp_sum ∧
      (accRecord a r).monthly_temp_count = a.monthly_temp_count ∧
      (accRecord a r).temp_count = a.temp_count + 1 ∧
      (accRecord a r).temp_sum = a.temp_sum + r.avg_temp ∧
      (accRecord a r).temp_min = min a.temp_min (tval r.avg_temp) ∧
      (accRecord a r).temp_max = max a.temp_max (tval r.avg_temp)) ∧
    ((process_records [⟨10, 0, 0, true, false⟩, ⟨0, 0, 0, false, false⟩,
        ⟨30, 0, 0, true, false⟩]).record_count = 3 ∧
      (process_records [⟨10, 0, 0, true, false⟩, ⟨0, 0, 0, false, false⟩,
        ⟨30, 0, 0, true, false⟩]).temp_count = 2) := by
  have h1 : ∀ rs : List WeatherRecord, (process_records rs).record_count = rs.length := by
    intro rs
    simpa [process_records, initCity] using foldl_record_count rs initCity
  have h2 : ∀ rs : List WeatherRecord,
      (process_records rs).temp_count = (rs.filter (fun r => r.valid_temp)).length := by
    intro rs
    simpa [process_records, initCity, initAcc] using foldl_temp_count rs initCity
  refine ⟨h1, h2, ?_, ?_, ?_, ?_⟩
  · intro c r hv
    simp [foldRecord, accRecord, hv]
  · intro a r hv hm
    have hb : bucketIdx r.month = none := by
      rw [bucketIdx, dif_neg]
      omega
    simp [accRecord, hv, hb]
  · rw [h1]
    rfl
  · rw [h2]
    rfl

/-- Witness for C5's out-of-range-month clause: a valid-temperature
record with month index 99 leaves the monthly sums untouched. -/
theorem local_reducer_policy_witness :
    (accRecord initAcc ⟨7, 0, 99, true, false⟩).monthly_temp_sum =
      initAcc.monthly_temp_sum :=
  (local_reducer_policy.2.2.2.1 initAcc ⟨7, 0, 99, true, false⟩ rfl (by decide)).1

/-! ## ResultCollector ordering (C4) -/

theorem displacements_length (cs : List ℕ) (d : ℕ) :
    (displacements cs d).length = cs.length := by
  induction cs generalizing d with
  | nil => rfl
  | cons c cs ih => simp [displacements, ih]

/-- Starting the running offset at `d` shifts every displacement by
`d`. -/
theorem displacements_getD_shift :
    ∀ (cs : List ℕ) (d i : ℕ), i < cs.length →
      (displacements cs d).getD i 0 = d + (displacements cs 0).getD i 0 := by
  intro cs
  induction cs with
  | nil => intro d i h; simp at h
  | cons c cs ih =>
    intro d i h
    cases i with
    | zero => simp [displacements]
    | succ i =>
      have hi : i < cs.length := by simpa using h
      show (displacements cs (d + c)).getD i 0 = d + (displacements cs (0 + c)).getD i 0
      rw [ih (d + c) i hi, ih (0 + c) i hi]
      omega

/-- The recurrence of the displacement array: each worker's offset is
the previous offset plus the previous count. -/
theorem displacements_getD_succ :
    ∀ (cs : List ℕ) (d i : ℕ), i + 1 < cs.length →
      (displacements cs d).getD (i + 1) 0 =
        (displacements cs d).getD i 0 + cs.getD i 0 := by
  intro cs
  induction cs with
  | nil => intro d i h; simp at h
  | cons c cs ih =>
    intro d i h
    cases i with
    | zero =>
      cases cs with
      | nil => simp at h
      | cons c2 cs2 => simp [displacements]
    | succ i =>
      have hi : i + 1 < cs.length := by simpa using h
      exact ih (d + c) i hi

/-- Every displacement is at least the starting offset. -/
theorem displacements_getD_le :
    ∀ (cs : List ℕ) (d i : ℕ), i < cs.length → d ≤ (displacements cs d).getD i 0 := by
  intro cs
  induction cs with
  | nil => intro d i h; simp at h
  | cons c cs ih =>
    intro d i h
    cases i with
    | zero => simp [displacements]
    | succ i =>
      have hi : i < cs.length := by simpa using h
      calc d ≤ d + c := Nat.le_add_right d c
        _ ≤ (displacements cs (d + c)).getD i 0 := ih (d + c) i hi

/-- Distinct sources' blocks do not overlap: a lower-indexed source's
block ends no later than a higher-indexed source's offset. -/
theorem displacements_block_le :
    ∀ (cs : List ℕ) (d i j : ℕ), i < j → j < cs.length →
      (displacements cs d).getD i 0 + cs.getD i 0 ≤ (displacements cs d).getD j 0 := by
  intro cs
  induction cs with
  | nil => intro d i j _ h; simp at h
  | cons c cs ih =>
    intro d i j hij h
    cases j with
    | zero => omega
    | succ j =>
      have hj : j < cs.length := by simpa using h
      cases i with
      | zero =>
        show d + c ≤ (displacements cs (d + c)).getD j 0
        exact displacements_getD_le cs (d + c) j hj
      | succ i => exact ih (d + c) i j (by omega) hj

theorem getD_map_length {α : Type} (ls : List (List α)) (i : ℕ) (hi : i < ls.length) :
    (ls.map List.length).getD i 0 = (ls.getD i []).length := by
  rw [List.getD_eq_getElem _ _ (by simpa using hi), List.getD_eq_getElem _ _ hi,
    List.getElem_map]

/-- The placement contract of the gather: the `j`-th local result of
source `i` sits at global position `offset i + j` of the concatenated
result. -/
theorem flatten_placement {α : Type} :
    ∀ (ls : List (List α)) (i j : ℕ), j < (ls.getD i []).length →
      (List.flatten ls)[(displacements (ls.map List.length) 0).getD i 0 + j]? =
        (ls.getD i [])[j]? := by
  intro ls
  induction ls with
  | nil =>
    intro i j h
    simp at h
  | cons l ls ih =>
    intro i j h
    cases i with
    | zero =>
      have hoff : (displacements ((l :: ls).map List.length) 0).getD 0 0 = 0 := rfl
      have h0 : j < l.length := h
      rw [hoff, Nat.zero_add, List.flatten_cons, List.getElem?_append_left h0]
      rfl
    | succ i =>
      have hi : i < ls.length := by
        by_contra hni
        rw [show (l :: ls).getD (i + 1) [] = ls.getD i [] from rfl,
          List.getD_eq_default _ _ (by omega)] at h
        simp at h
      have hoff : (displacements ((l :: ls).map List.length) 0).getD (i + 1) 0 =
          l.length + (displacements (ls.map List.length) 0).getD i 0 := by
        show (displacements (ls.map List.length) (0 + l.length)).getD i 0 = _
        rw [Nat.zero_add]
        exact displacements_getD_shift (ls.map List.length) l.length i (by simpa using hi)
      rw [hoff, List.flatten_cons, List.getElem?_append_right (by omega),
        show l.length + (displacements (ls.map List.length) 0).getD i 0 + j - l.length =
          (displacements (ls.map List.length) 0).getD i 0 + j by omega]
      exact ih i j h

/-- The sequential deposit of all blocks reconstructs the concatenated
result (over any base offset and initial buffer). -/
theorem gatherAux_flatten {α : Type} :
    ∀ (ls : List (List α)) (d : ℕ) (buf : ℕ → Option α),
      (List.range ls.length).foldl
        (fun b i =>
          blockWrite b ((displacements (ls.map List.length) d).getD i 0) (ls.getD i []))
        buf =
      fun p =>
        if d ≤ p ∧ p < d + (List.flatten ls).length then (List.flatten ls)[p - d]?
        else buf p := by
  intro ls
  induction ls with
  | nil =>
    intro d buf
    funext p
    rw [List.length_nil, List.range_zero, List.foldl_nil,
      if_neg (by simp only [List.flatten_nil, List.length_nil]; omega)]
  | cons l ls ih =>
    intro d buf
    rw [List.length_cons, List.range_succ_eq_map, List.foldl_cons, List.foldl_map]
    show (List.range ls.length).foldl
        (fun b i =>
          blockWrite b ((displacements (ls.map List.length) (d + l.length)).getD i 0)
            (ls.getD i []))
        (blockWrite buf d l) = _
    rw [ih (d + l.length) (blockWrite buf d l)]
    funext p
    simp only [List.flatten_cons, List.length_append]
    by_cases h1 : d + l.length ≤ p ∧ p < d + l.length + ls.flatten.length
    · rw [if_pos h1, if_pos (by omega), List.getElem?_append_right (by omega)]
      congr 1
      omega
    · rw [if_neg h1]
      show (if d ≤ p ∧ p < d + l.length then l[p - d]? else buf p) = _
      by_cases h2 : d ≤ p ∧ p < d + l.length
      · rw [if_pos h2, if_pos (by omega), List.getElem?_append_left (by omega)]
      · rw [if_neg h2, if_neg (by omega)]

/-- Deposits into disjoint (or empty) regions commute. -/
theorem blockWrite_comm_of_disjoint {α : Type} (buf : ℕ → Option α) (o1 o2 : ℕ)
    (l1 l2 : List α)
    (h : ∀ p, o1 ≤ p ∧ p < o1 + l1.length → o2 ≤ p ∧ p < o2 + l2.length → False) :
    blockWrite (blockWrite buf o1 l1) o2 l2 = blockWrite (blockWrite buf o2 l2) o1 l1 := by
  funext p
  simp only [blockWrite]
  split_ifs with ha hb hc <;> try rfl
  exact (h p hb ha).elim

/-- No position lies in two distinct sources' blocks. -/
theorem displacements_blocks_disjoint {α : Type} (ls : List (List α)) (u v : ℕ)
    (huv : u ≠ v) (p : ℕ)
    (hu : (displacements (ls.map List.length) 0).getD u 0 ≤ p ∧
      p < (displacements (ls.map List.length) 0).getD u 0 + (ls.getD u []).length)
    (hv : (displacements (ls.map List.length) 0).getD v 0 ≤ p ∧
      p < (displacements (ls.map List.length) 0).getD v 0 + (ls.getD v []).length) :
    False := by
  have hulen : u < ls.length := by
    by_contra hc
    have h0 : ls.getD u [] = [] := List.getD_eq_default _ _ (by omega)
    rw [h0] at hu
    simp only [List.length_nil, Nat.add_zero] at hu
    omega
  have hvlen : v < ls.length := by
    by_contra hc
    have h0 : ls.getD v [] = [] := List.getD_eq_default _ _ (by omega)
    rw [h0] at hv
    simp only [List.length_nil, Nat.add_zero] at hv
    omega
  rcases Nat.lt_or_ge u v with hlt | hge
  · have hble := displacements_block_le (ls.map List.length) 0 u v hlt
      (by simpa using hvlen)
    rw [getD_map_length ls u hulen] at hble
    omega
  · have hlt2 : v < u := by omega
    have hble := displacements_block_le (ls.map List.length) 0 v u hlt2
      (by simpa using hulen)
    rw [getD_map_length ls v hvlen] at hble
    omega

/-- Two distinct sources' deposits commute: their blocks are disjoint
(or empty), so neither write observes the other. -/
theorem blockWrite_comm {α : Type} (ls : List (List α)) (x y : ℕ) (buf : ℕ → Option α) :
    blockWrite (blockWrite buf ((displacements (ls.map List.length) 0).getD x 0) (ls.getD x []))
        ((displacements (ls.map List.length) 0).getD y 0) (ls.getD y []) =
      blockWrite (blockWrite buf ((displacements (ls.map List.length) 0).getD y 0)
          (ls.getD y []))
        ((displacements (ls.map List.length) 0).getD x 0) (ls.getD x []) := by
  rcases eq_or_ne x y with rfl | hxy
  · rfl
  exact blockWrite_comm_of_disjoint buf _ _ _ _
    (fun p hx hy => displacements_blocks_disjoint ls x y hxy p hx hy)

/-- The assembled buffer does not depend on arrival order: any
permutation of the sources produces the buffer assembled in source
order. -/
theorem gatherArrival_perm {α : Type} (locals : List (List α)) (order : List ℕ)
    (h : order.Perm (List.range locals.length)) :
    gatherArrival locals order = gatherArrival locals (List.range locals.length) :=
  h.foldl_eq' (fun x _ y _ buf => blockWrite_comm locals x y buf) _

/-- Assembling in source order reproduces the concatenation of the
sources' local results. -/
theorem gatherArrival_range {α : Type} (locals : List (List α)) :
    gatherArrival locals (List.range locals.length) =
      fun p => (List.flatten locals)[p]? := by
  rw [gatherArrival, gatherAux_flatten]
  funext p
  by_cases hp : p < (List.flatten locals).length
  · rw [if_pos ⟨Nat.zero_le p, by omega⟩, Nat.sub_zero]
  · rw [if_neg (by omega), List.getElem?_eq_none (by omega)]

/-- C4: the collector places the `j`-th local result of source `i` at
global position `offset i + j`, where `offset` is the exclusive prefix
sum of the per-source counts (`offset 0 = 0`,
`offset (i+1) = offset i + count i`); the assembled result depends only
on the count vector and the per-source local orders, never on
completion/arrival order; sources with zero results occupy no slots;
and for counts `[0, 5, 3, 0]` the offsets are `[0, 0, 5, 8]`
(Scenario D). -/
theorem result_collector_ordering :
    (∀ counts : List ℕ, (displacements counts 0).getD 0 0 = 0) ∧
    (∀ (counts : List ℕ) (i : ℕ), i + 1 < counts.length →
      (displacements counts 0).getD (i + 1) 0 =
        (displacements counts 0).getD i 0 + counts.getD i 0) ∧
    (∀ (α : Type) (locals : List (List α)) (i j : ℕ), j < (locals.getD i []).length →
      (List.flatten locals)[(displacements (locals.map List.length) 0).getD i 0 + j]? =
        (locals.getD i [])[j]?) ∧
    (∀ (α : Type) (locals : List (List α)) (order : List ℕ),
      order.Perm (List.range locals.length) →
      gatherArrival locals order = fun p => (List.flatten locals)[p]?) ∧
    displacements [0, 5, 3, 0] 0 = [0, 0, 5, 8] := by
  refine ⟨?_, ?_, ?_, ?_, ?_⟩
  · intro counts
    cases counts with
    | nil => rfl
    | cons c cs => rfl
  · exact fun counts => displacements_getD_succ counts 0
  · exact fun _ => flatten_placement
  · intro α locals order h
    rw [gatherArrival_perm locals order h, gatherArrival_range]
  · rfl

/-- Witness for C4: with local results `[[10], [], [20, 30]]`, source
2's second item sits at global position `offset 2 + 1 = 2`. -/
theorem result_collector_ordering_witness :
    (List.flatten [[10], [], [20, 30]])[(displacements
        ([[10], [], [20, 30]].map List.length) 0).getD 2 0 + 1]? =
      ([[10], ([] : List ℕ), [20, 30]].getD 2 [])[1]? :=
  result_collector_ordering.2.2.1 ℕ [[10], [], [20, 30]] 2 1 (by decide)

/-! ## The record-level (kernel) reduction versus the sequential fold
(C3)

Under the race-free schedule the kernel's data decomposition reproduces
the sequential fold exactly; under a racy interleaving of the
cross-block extrema merge it does not.  The supporting refinement is
proved first, the racing execution at the end of this section. -/

/-- The grid-stride loop expressed as the monoid sum of the visited
records' contributions. -/
theorem foldl_accRecord_getD (rs : List WeatherRecord) (ids : List ℕ) (z : StatAccumulator) :
    ids.foldl (fun a i => accRecord a (rs.getD i default)) z =
      z + (ids.map (recAt rs)).sum := by
  induction ids generalizing z with
  | nil => simp
  | cons i ids ih =>
    rw [List.foldl_cons, ih, accRecord_eq_add, List.map_cons, List.sum_cons, add_assoc]
    rfl

/-- List-level fiber sums coincide with `Finset` fiber sums. -/
theorem filter_mod_map_sum {M : Type} [AddCommMonoid M] (N W j : ℕ) (g : ℕ → M) :
    (((List.range N).filter (fun i => i % W == j)).map g).sum =
      ∑ i ∈ (Finset.range N).filter (fun i => i % W = j), g i := by
  induction N with
  | zero => simp
  | succ n ih =>
    rw [List.range_succ, List.filter_append, List.map_append, List.sum_append, ih,
      Finset.range_succ, Finset.filter_insert]
    by_cases h : n % W = j
    · rw [if_pos h, Finset.sum_insert (by simp)]
      simp [h, add_comm]
    · rw [if_neg h]
      simp [h]

/-- A thread's private fold is the fiber sum of its strided residue
class. -/
theorem threadFold_eq_sum (rs : List WeatherRecord) (B G b t : ℕ) :
    threadFold rs B G b t =
      ∑ i ∈ (Finset.range rs.length).filter (fun i => i % (B * G) = b * B + t),
        recAt rs i := by
  rw [threadFold, foldl_accRecord_getD, initAcc_eq_zero, zero_add, filter_mod_map_sum]

/-- The tournament tree over `2^k` slots leaves the group sum in slot 0. -/
theorem treeReduceAux_zero (k : ℕ) (f : ℕ → StatAccumulator) :
    treeReduceAux k f 0 = ∑ t ∈ Finset.range (2 ^ k), f t := by
  induction k generalizing f with
  | zero => simp [treeReduceAux]
  | succ k ih =>
    have h2 : (2 : ℕ) ^ (k + 1) = 2 ^ k + 2 ^ k := by
      rw [pow_succ]
      omega
    rw [treeReduceAux, ih]
    calc ∑ t ∈ Finset.range (2 ^ k), treeStep f (2 ^ k) t
        = ∑ t ∈ Finset.range (2 ^ k), (f t + f (t + 2 ^ k)) :=
          Finset.sum_congr rfl fun t ht => by
            rw [treeStep, if_pos (Finset.mem_range.mp ht)]
            rfl
      _ = (∑ t ∈ Finset.range (2 ^ k), f t) + ∑ t ∈ Finset.range (2 ^ k), f (t + 2 ^ k) :=
          Finset.sum_add_distrib
      _ = (∑ t ∈ Finset.range (2 ^ k), f t) + ∑ t ∈ Finset.range (2 ^ k), f (2 ^ k + t) := by
          congr 1
          exact Finset.sum_congr rfl fun t _ => by rw [Nat.add_comm]
      _ = ∑ t ∈ Finset.range (2 ^ k + 2 ^ k), f t := (Finset.sum_range_add f (2 ^ k) (2 ^ k)).symm
      _ = ∑ t ∈ Finset.range (2 ^ (k + 1)), f t := by rw [h2]

/-- Reindexing the double sum over `(block, thread)` pairs as a single
sum over residues `j = b*B + t < G*B`. -/
theorem sum_mul_reindex {M : Type} [AddCommMonoid M] (G B : ℕ) (S : ℕ → M) :
    ∑ b ∈ Finset.range G, ∑ t ∈ Finset.range B, S (b * B + t) =
      ∑ j ∈ Finset.range (G * B), S j := by
  induction G with
  | zero => simp
  | succ g ih =>
    rw [Finset.sum_range_succ, ih, Nat.succ_mul, Finset.sum_range_add]

/-- Summing all fibers of `· % W` over `[0, W)` recovers the full sum. -/
theorem sum_mod_fiber {M : Type} [AddCommMonoid M] (N W : ℕ) (hW : 0 < W) (g : ℕ → M) :
    ∑ j ∈ Finset.range W, ∑ i ∈ (Finset.range N).filter (fun i => i % W = j), g i =
      ∑ i ∈ Finset.range N, g i :=
  Finset.sum_fiberwise_of_maps_to (fun i _ => Finset.mem_range.mpr (Nat.mod_lt i hW)) g

theorem sum_recAt (rs : List WeatherRecord) :
    ∑ i ∈ Finset.range rs.length, recAt rs i = (rs.map recOf).sum := by
  induction rs with
  | nil => simp
  | cons r rs ih =>
    have hcg : ∑ i ∈ Finset.range rs.length, recAt (r :: rs) (i + 1) =
        ∑ i ∈ Finset.range rs.length, recAt rs i :=
      Finset.sum_congr rfl fun i _ => rfl
    rw [List.length_cons, Finset.sum_range_succ', hcg, ih]
    show (rs.map recOf).sum + recOf r = _
    rw [List.map_cons, List.sum_cons, add_comm]

theorem foldl_combine_map {α : Type} (l : List α) (h : α → StatAccumulator)
    (z : StatAccumulator) :
    l.foldl (fun g x => combine g (h x)) z = z + (l.map h).sum := by
  induction l generalizing z with
  | nil => simp
  | cons x l ih =>
    rw [List.foldl_cons, ih, combine_eq_add, List.map_cons, List.sum_cons, add_assoc]

theorem range_map_sum {M : Type} [AddCommMonoid M] (n : ℕ) (h : ℕ → M) :
    ((List.range n).map h).sum = ∑ b ∈ Finset.range n, h b := by
  induction n with
  | zero => simp
  | succ m ih =>
    rw [List.range_succ, List.map_append, List.sum_append, Finset.sum_range_succ, ih]
    simp

/-- An uninterrupted load/store pair of block `b` amounts to one
`combine` into the global accumulator. -/
theorem crossMerge_load_store (v : ℕ → StatAccumulator) (b : ℕ) (evs : List MergeEv)
    (rmin rmax : ℕ → Temp) (g : StatAccumulator) :
    crossMerge v (MergeEv.load b :: MergeEv.store b :: evs) rmin rmax g =
      crossMerge v evs (Function.update rmin b g.temp_min)
        (Function.update rmax b g.temp_max) (combine g (v b)) := by
  show crossMerge v evs (Function.update rmin b g.temp_min)
      (Function.update rmax b g.temp_max)
      { temp_sum := g.temp_sum + (v b).temp_sum
        temp_min := min (Function.update rmin b g.temp_min b) ((v b).temp_min)
        temp_max := max (Function.update rmax b g.temp_max b) ((v b).temp_max)
        temp_count := g.temp_count + (v b).temp_count
        precip_sum := g.precip_sum + (v b).precip_sum
        precip_count := g.precip_count + (v b).precip_count
        monthly_temp_sum := fun m => g.monthly_temp_sum m + (v b).monthly_temp_sum m
        monthly_temp_count := fun m => g.monthly_temp_count m + (v b).monthly_temp_count m } =
    crossMerge v evs (Function.update rmin b g.temp_min)
      (Function.update rmax b g.temp_max) (combine g (v b))
  congr 1
  ext <;> simp [combine, Function.update_same]

/-- Under the race-free schedule, the cross-block merge is the fold of
`combine` over the blocks in order. -/
theorem crossMerge_serial (v : ℕ → StatAccumulator) :
    ∀ (l : List ℕ) (rmin rmax : ℕ → Temp) (g : StatAccumulator),
      crossMerge v ((l.map (fun b => [MergeEv.load b, MergeEv.store b])).flatten)
          rmin rmax g =
        l.foldl (fun g b => combine g (v b)) g := by
  intro l
  induction l with
  | nil => intro rmin rmax g; rfl
  | cons b l ih =>
    intro rmin rmax g
    rw [List.map_cons, List.flatten_cons, List.cons_append, List.cons_append,
      List.nil_append, crossMerge_load_store, ih, List.foldl_cons]

/-- Supporting result for the race analysis: for every record sequence,
every group size `2^k` and every group count `G ≥ 1`, the record-level
reduction under the race-free schedule — grid-strided private folds,
tournament reduction inside each group, then the blocks' cross-group
merges running without interleaving — produces exactly the accumulator
of the single-threaded left fold over all records in original order.
The data decomposition is thus correct, and the only defect of the
kernel is the non-atomicity of the extrema merge exhibited below. -/
theorem process_weather_records_serial_refines_fold (rs : List WeatherRecord) (k G : ℕ)
    (hG : 0 < G) :
    process_weather_records rs k G (serialSched G) =
      (process_records rs).toStatAccumulator := by
  rw [process_records_toStat, process_weather_records, serialSched, crossMerge_serial,
    foldl_combine_map, initAcc_eq_zero, zero_add, range_map_sum]
  have hb : ∀ b, blockReduce rs k G b =
      ∑ t ∈ Finset.range (2 ^ k), threadFold rs (2 ^ k) G b t :=
    fun b => treeReduceAux_zero k _
  simp only [hb, threadFold_eq_sum]
  rw [sum_mul_reindex G (2 ^ k)
      (fun j => ∑ i ∈ (Finset.range rs.length).filter (fun i => i % (2 ^ k * G) = j),
        recAt rs i),
    Nat.mul_comm G (2 ^ k),
    sum_mod_fiber rs.length (2 ^ k * G)
      (Nat.mul_pos (pow_pos (by norm_num) k) hG) (recAt rs),
    sum_recAt]

/-- C3 (code evidence): the claim's "same accumulator as a
single-threaded fold, for every number of execution units and groups"
fails on the code for two or more groups, because the cross-group
extrema merge is the non-atomic read-modify-write of
`weather_analysis_cuda.cu` lines 216-217.  With records `[5, 10]`,
group size `2^0 = 1` and two groups (block 0 folds record 5, block 1
record 10), the interleaving in which both blocks load the initial
global minimum before either stores — a real execution of the kernel,
each block loading once and then storing once — yields global
`min = 10`, while the sequential fold yields `min = 5`; the add fields
(here `count`) still agree because their updates are atomic. -/
theorem record_level_reduction_race :
    (process_weather_records [⟨5, 0, -1, true, false⟩, ⟨10, 0, -1, true, false⟩] 0 2
        [MergeEv.load 0, MergeEv.load 1, MergeEv.store 0, MergeEv.store 1]).temp_min =
      tval 10 ∧
    (process_records [⟨5, 0, -1, true, false⟩, ⟨10, 0, -1, true, false⟩]).temp_min =
      tval 5 ∧
    tval 10 ≠ tval 5 ∧
    (process_weather_records [⟨5, 0, -1, true, false⟩, ⟨10, 0, -1, true, false⟩] 0 2
        [MergeEv.load 0, MergeEv.load 1, MergeEv.store 0, MergeEv.store 1]).temp_count =
      (process_records [⟨5, 0, -1, true, false⟩, ⟨10, 0, -1, true, false⟩]).temp_count := by
  refine ⟨?_, ?_, ?_, ?_⟩ <;> decide

/-! ## Partition policies (C6) -/

theorem mem_blockOwn (N W r i : ℕ) :
    i ∈ blockOwn N W r ↔
      r * files_per_proc N W ≤ i ∧ i < min ((r + 1) * files_per_proc N W) N := by
  rw [blockOwn, List.mem_range'_1]
  have h : (r + 1) * files_per_proc N W =
      r * files_per_proc N W + files_per_proc N W := by ring
  omega

theorem mem_cyclicGo (N W : ℕ) (hW : 0 < W) :
    ∀ d i x, N - i ≤ d → (x ∈ cyclicGo N W i ↔ x < N ∧ ∃ k, x = i + k * W) := by
  intro d
  induction d with
  | zero =>
    intro i x hd
    rw [cyclicGo, dif_neg (by omega)]
    simp only [List.not_mem_nil, false_iff, not_and, not_exists]
    rintro hx k rfl
    exact absurd (lt_of_lt_of_le hx (by omega)) (Nat.not_lt.mpr (Nat.le_add_right _ _))
  | succ d ih =>
    intro i x hd
    by_cases hi : i < N
    · rw [cyclicGo, dif_pos ⟨hW, hi⟩, List.mem_cons, ih (i + W) x (by omega)]
      constructor
      · rintro (rfl | ⟨hx, k, rfl⟩)
        · exact ⟨hi, 0, by simp⟩
        · exact ⟨hx, k + 1, by ring⟩
      · rintro ⟨hx, k, rfl⟩
        cases k with
        | zero => simp
        | succ k =>
          right
          exact ⟨hx, k, by ring⟩
    · rw [cyclicGo, dif_neg (by omega)]
      simp only [List.not_mem_nil, false_iff, not_and, not_exists]
      rintro hx k rfl
      exact absurd (lt_of_lt_of_le hx (by omega)) (Nat.not_lt.mpr (Nat.le_add_right _ _))

/-- `W * ⌈N / W⌉` covers all of `[0, N)`. -/
theorem le_mul_files_per_proc (N W : ℕ) (hW : 0 < W) : N ≤ W * files_per_proc N W := by
  rw [files_per_proc]
  have hdm := Nat.mod_add_div (N + W - 1) W
  have hm := Nat.mod_lt (N + W - 1) hW
  omega

/-- C6: under the block policy, worker `r` owns exactly the interval
`[r·⌈N/W⌉, min((r+1)·⌈N/W⌉, N))` (`files_per_proc N W = (N + W - 1) / W`
is `⌈N/W⌉` for `W > 0`), possibly empty for trailing workers; under the
cyclic policy, worker `r < W` owns exactly `{r, r+W, r+2W, …} ∩ [0,N)`;
both ownership maps are functions of `(r, N, W)` alone, and for each
policy the workers' index sets are pairwise disjoint and together cover
`[0, N)`. -/
theorem partition_policies (N W : ℕ) (hW : 0 < W) :
    (∀ r i, i ∈ blockOwn N W r ↔
      r * files_per_proc N W ≤ i ∧ i < min ((r + 1) * files_per_proc N W) N) ∧
    (∀ r i, r < W → (i ∈ cyclicOwn N W r ↔ i < N ∧ ∃ k, i = r + k * W)) ∧
    (∀ r1 r2 i, r1 ≠ r2 → ¬(i ∈ blockOwn N W r1 ∧ i ∈ blockOwn N W r2)) ∧
    (∀ r1 r2 i, r1 < W → r2 < W → r1 ≠ r2 →
      ¬(i ∈ cyclicOwn N W r1 ∧ i ∈ cyclicOwn N W r2)) ∧
    (∀ i, i < N → ∃ r, r < W ∧ i ∈ blockOwn N W r) ∧
    (∀ i, i < N → ∃ r, r < W ∧ i ∈ cyclicOwn N W r) := by
  have hcy : ∀ r i, i ∈ cyclicOwn N W r ↔ i < N ∧ ∃ k, i = r + k * W := by
    intro r i
    exact mem_cyclicGo N W hW (N - r) r i (le_refl _)
  refine ⟨mem_blockOwn N W, fun r i _ => hcy r i, ?_, ?_, ?_, ?_⟩
  · intro r1 r2 i hne ⟨h1, h2⟩
    rw [mem_blockOwn] at h1 h2
    rcases Nat.lt_or_ge r1 r2 with hlt | hge
    · have hmono : (r1 + 1) * files_per_proc N W ≤ r2 * files_per_proc N W :=
        Nat.mul_le_mul_right _ (by omega)
      omega
    · have hlt2 : r2 < r1 := by omega
      have hmono : (r2 + 1) * files_per_proc N W ≤ r1 * files_per_proc N W :=
        Nat.mul_le_mul_right _ (by omega)
      omega
  · intro r1 r2 i hr1 hr2 hne ⟨h1, h2⟩
    rw [hcy] at h1 h2
    obtain ⟨-, k1, hk1⟩ := h1
    obtain ⟨-, k2, hk2⟩ := h2
    have e1 : i % W = r1 := by
      rw [hk1, Nat.add_mul_mod_self_right, Nat.mod_eq_of_lt hr1]
    have e2 : i % W = r2 := by
      rw [hk2, Nat.add_mul_mod_self_right, Nat.mod_eq_of_lt hr2]
    exact hne (e1 ▸ e2)
  · intro i hi
    have hfpp : 0 < files_per_proc N W := by
      rw [files_per_proc]
      have : W ≤ N + W - 1 := by omega
      exact Nat.one_le_div_iff hW |>.mpr this
    refine ⟨i / files_per_proc N W, ?_, ?_⟩
    · rw [Nat.div_lt_iff_lt_mul hfpp]
      calc i < N := hi
        _ ≤ W * files_per_proc N W := le_mul_files_per_proc N W hW
    · rw [mem_blockOwn]
      have hdm := Nat.mod_add_div i (files_per_proc N W)
      have hm := Nat.mod_lt i hfpp
      have hc1 : i / files_per_proc N W * files_per_proc N W =
          files_per_proc N W * (i / files_per_proc N W) := Nat.mul_comm _ _
      have hc2 : (i / files_per_proc N W + 1) * files_per_proc N W =
          i / files_per_proc N W * files_per_proc N W + files_per_proc N W := by ring
      omega
  · intro i hi
    refine ⟨i % W, Nat.mod_lt i hW, ?_⟩
    rw [hcy]
    refine ⟨hi, i / W, ?_⟩
    have := Nat.mod_add_div i W
    have h2 : i / W * W = W * (i / W) := Nat.mul_comm _ _
    omega

/-- Witness for C6: with `N = 5` items and `W = 2` workers, index 3
belongs to cyclic worker 1. -/
theorem partition_policies_witness : 3 ∈ cyclicOwn 5 2 1 :=
  ((partition_policies 5 2 (by decide)).2.1 1 3 (by decide)).mpr ⟨by decide, 1, by decide⟩

/-! ## The accumulator invariant (C8) -/

theorem statInv_initAcc : StatInv initAcc :=
  ⟨by simp [initAcc], fun _ => ⟨rfl, rfl⟩⟩

theorem statInv_accRecord (a : StatAccumulator) (r : WeatherRecord) (h : StatInv a) :
    StatInv (accRecord a r) := by
  cases hv : r.valid_temp with
  | false =>
    refine ⟨fun hc => ?_, fun hc => ?_⟩ <;>
      simp only [accRecord, hv, if_neg Bool.false_ne_true, Bool.false_eq_true,
        ite_false] at hc ⊢
    · exact h.1 hc
    · exact h.2 hc
  | true =>
    refine ⟨fun _ => ?_, fun hc => ?_⟩
    · simp only [accRecord, hv, if_true]
      exact le_trans (min_le_right _ _) (le_max_right _ _)
    · exact absurd hc (by simp [accRecord, hv])

theorem statInv_combine (a b : StatAccumulator) (ha : StatInv a) (hb : StatInv b) :
    StatInv (combine a b) := by
  refine ⟨fun hc => ?_, fun hc => ?_⟩
  · show min a.temp_min b.temp_min ≤ max a.temp_max b.temp_max
    rcases Nat.eq_zero_or_pos a.temp_count with hac | hac
    swap
    · exact le_trans (min_le_left _ _) (le_trans (ha.1 hac) (le_max_left _ _))
    · have hbc : 0 < b.temp_count := by
        have : a.temp_count + b.temp_count = (combine a b).temp_count := rfl
        omega
      exact le_trans (min_le_right _ _) (le_trans (hb.1 hbc) (le_max_right _ _))
  · have hz : a.temp_count = 0 ∧ b.temp_count = 0 := by
      have : (combine a b).temp_count = a.temp_count + b.temp_count := rfl
      omega
    have h1 := ha.2 hz.1
    have h2 := hb.2 hz.2
    constructor
    · show min a.temp_min b.temp_min = ⊤
      rw [h1.1, h2.1, min_top_left]
    · show max a.temp_max b.temp_max = ⊥
      rw [h1.2, h2.2, max_bot_left]

/-- C8: every accumulator produced by the LocalReducer satisfies the
invariant — `min ≤ max` when `count > 0`, and the `+∞`/`-∞` sentinels
when `count = 0` — and `combine` preserves it. -/
theorem accumulator_invariant :
    (∀ rs : List WeatherRecord, StatInv (process_records rs).toStatAccumulator) ∧
    (∀ a b : StatAccumulator, StatInv a → StatInv b → StatInv (combine a b)) := by
  constructor
  · intro rs
    rw [process_records, foldl_foldRecord_toStat]
    show StatInv (rs.foldl accRecord initAcc)
    have h : ∀ (l : List WeatherRecord) (a : StatAccumulator),
        StatInv a → StatInv (l.foldl accRecord a) := by
      intro l
      induction l with
      | nil => exact fun a ha => ha
      | cons r l ih => exact fun a ha => ih _ (statInv_accRecord a r ha)
    exact h rs initAcc statInv_initAcc
  · exact statInv_combine

/-- Witness for C8: the invariant holds of the combination of the
folds of two concrete record lists. -/
theorem accumulator_invariant_witness :
    StatInv (combine (process_records [⟨10, 0, -1, true, false⟩]).toStatAccumulator
      (process_records [⟨20, 0, 3, true, true⟩, ⟨5, 1, 2, false, true⟩]).toStatAccumulator) :=
  accumulator_invariant.2 _ _ (accumulator_invariant.1 _) (accumulator_invariant.1 _)

/-! ## The cross-block global min/max update is a non-atomic
read-modify-write (C2)

The claim says the cross-group extrema merge uses an atomic
compare-and-swap-style primitive, so that no interleaving performs a
non-atomic read-modify-write on the shared location.  The kernel as
written (`weather_analysis_cuda.cu` lines 216-217) uses a plain
`fminf`/`fmaxf` read-modify-write; the theorem below exhibits an
interleaving of two completing blocks (both load the initial global
minimum before either stores) that loses block 0's minimum. -/

/-- C2 (code evidence): the as-written cross-block minimum update is a
non-atomic load/store pair; under the interleaving
`load 0, load 1, store 0, store 1` with block minima `5` and `10`, the
final global minimum is `10`, not the correct `min 5 10 = 5` — a lost
update that an atomic compare-and-swap primitive would prevent. -/
theorem global_min_merge_race :
    runMinMerge (fun b => if b = 0 then tval 5 else tval 10)
        [MergeEv.load 0, MergeEv.load 1, MergeEv.store 0, MergeEv.store 1]
        (fun _ => ⊤) ⊤ = tval 10 ∧
      min (tval 5) (tval 10) = tval 5 ∧ tval 10 ≠ tval 5 := by
  refine ⟨?_, ?_, ?_⟩
  · simp [runMinMerge, Function.update_apply, min_top_left]
  · simp only [tval, ← WithTop.coe_min, ← WithBot.coe_min]
    norm_num
  · simp only [tval, ne_eq, WithBot.coe_inj, WithTop.coe_inj]
    norm_num

/-! ## Unreadable inputs (C9) -/

/-- C9 (code evidence): on an unreadable input, `process_city_file`
returns before the zero-initialisation runs, handing back the caller's
slot exactly as it was — so the item does NOT degrade to the empty
accumulator with `total_records = 0` that the claim promises (the slot
keeps its indeterminate `malloc` contents, here `record_count = 7`
against `initCity.record_count = 0`).  The non-fatality part of the
claim does hold: every other work item is processed independently and
unaffected. -/
theorem unreadable_input_behavior :
    (∀ c : CityStats, process_city_file none c = c) ∧
    (process_city_file none garbageSlot).record_count = 7 ∧
    initCity.record_count = 0 ∧
    process_city_files
        [some [⟨10, 0, -1, true, false⟩], none, some [⟨20, 0, -1, true, false⟩]]
        [garbageSlot, garbageSlot, garbageSlot] =
      [process_records [⟨10, 0, -1, true, false⟩], garbageSlot,
        process_records [⟨20, 0, -1, true, false⟩]] :=
  ⟨fun _ => rfl, rfl, rfl, rfl⟩

/-! ## The CUDA per-file record cap (C10) -/

/-- C10: the CUDA host parser reads at most `MAX_RECORDS_PER_FILE =
50000` data rows per file — rows beyond the first 50000 are silently
ignored and the reported `record_count = min(length, 50000) ≤ 50000` is
the number of rows actually parsed — whereas the serial (and OpenMP /
MPI, which share the same loop) reducer counts every row, so the
backends disagree on any file longer than 50000 rows. -/
theorem cuda_record_limit :
    (∀ rows : List WeatherRecord,
      cuda_record_count rows = min rows.length MAX_RECORDS_PER_FILE) ∧
    (∀ rows : List WeatherRecord, cuda_record_count rows ≤ MAX_RECORDS_PER_FILE) ∧
    (∀ rows extra : List WeatherRecord, rows.length = MAX_RECORDS_PER_FILE →
      cuda_host_parse (rows ++ extra) = rows) ∧
    (∀ rows : List WeatherRecord, (process_records rows).record_count = rows.length) ∧
    (∀ rows : List WeatherRecord, MAX_RECORDS_PER_FILE < rows.length →
      cuda_record_count rows ≠ (process_records rows).record_count) := by
  have hserial : ∀ rows : List WeatherRecord,
      (process_records rows).record_count = rows.length := by
    intro rows
    simpa [process_records, initCity] using foldl_record_count rows initCity
  have hcount : ∀ rows : List WeatherRecord,
      cuda_record_count rows = min rows.length MAX_RECORDS_PER_FILE := by
    intro rows
    rw [cuda_record_count, cuda_host_parse, List.length_take, Nat.min_comm]
  refine ⟨hcount, ?_, ?_, hserial, ?_⟩
  · intro rows
    rw [hcount]
    exact Nat.min_le_right _ _
  · intro rows extra h
    rw [cuda_host_parse, ← h]
    exact List.take_left rows extra
  · intro rows h
    rw [hcount, hserial]
    omega

/-- Witness for C10: a 50001-row file is truncated by the CUDA backend,
so its reported count differs from the serial one. -/
theorem cuda_record_limit_witness :
    cuda_record_count (List.replicate 50001 (⟨0, 0, 0, false, false⟩ : WeatherRecord)) ≠
      (process_records
        (List.replicate 50001 (⟨0, 0, 0, false, false⟩ : WeatherRecord))).record_count :=
  cuda_record_limit.2.2.2.2 _
    (by rw [List.length_replicate, MAX_RECORDS_PER_FILE]; omega)

end Weather
